import Mathlib

/-!
Verification of the harvester media-library synchronizer (src/main.rs).

The development embeds, from the source:
* the filename classifier `Analyzer::analyze` with its five regexes
  (a small leftmost-first backtracking regex engine stands in for the
  Rust `regex` crate on the concrete patterns used);
* the link synchronizer `remove_hardlinks` / `create_links` over a flat
  model of the target tree (a list of path/inode pairs), with the
  `Runner` dry/real distinction as a `Bool` flag;
* the empty-directory pruner `remove_empty_directories` over a tree
  model of the target directory.

Rust `u32` parsing is modelled by `parseU32` (digits, value below 2^32);
a `.unwrap()` panic is modelled as `Except.error`.
-/

set_option autoImplicit false

namespace Harvester

/-! ## Regex engine

Leftmost-first (Perl-style) matching with greedy quantifiers, as the
Rust `regex` crate implements for the patterns below.  `chr p` is a
character class, `star` is greedy `*`, `alt` tries its left branch
first, `group n` records a capture, `eos` is `$`. -/

inductive RE where
  | eps
  | chr (p : Char → Bool)
  | cat (a b : RE)
  | alt (a b : RE)
  | star (a : RE)
  | group (n : Nat) (a : RE)
  | eos

/-- Captures: group number paired with captured characters; the head of
the list is the most recently completed capture of that group. -/
abbrev Caps := List (Nat × List Char)

/-- CPS backtracking matcher.  `fuel` bounds call depth; the star case
refuses empty iterations, as real engines do. -/
def reRun : Nat → RE → List Char → Caps → (List Char → Caps → Option (Caps × List Char)) →
    Option (Caps × List Char)
  | 0, _, _, _, _ => none
  | _ + 1, .eps, s, caps, k => k s caps
  | _ + 1, .chr p, s, caps, k =>
    match s with
    | [] => none
    | c :: t => if p c then k t caps else none
  | fuel + 1, .cat a b, s, caps, k =>
    reRun fuel a s caps (fun s2 caps2 => reRun fuel b s2 caps2 k)
  | fuel + 1, .alt a b, s, caps, k =>
    match reRun fuel a s caps k with
    | some r => some r
    | none => reRun fuel b s caps k
  | fuel + 1, .star a, s, caps, k =>
    match reRun fuel a s caps (fun s2 caps2 =>
        if s2.length < s.length then reRun fuel (.star a) s2 caps2 k else none) with
    | some r => some r
    | none => k s caps
  | fuel + 1, .group n a, s, caps, k =>
    reRun fuel a s caps (fun s2 caps2 =>
      k s2 ((n, s.take (s.length - s2.length)) :: caps2))
  | _ + 1, .eos, s, caps, k => if s.isEmpty then k s caps else none

/-- Generous call-depth budget for the fixed patterns below. -/
def reFuel (s : List Char) : Nat := 200 * (s.length + 2)

/-- Match anchored at the current position (used directly for the
`^`-anchored patterns); yields captures and the rest after the match. -/
def reTry (re : RE) (s : List Char) : Option (Caps × List Char) :=
  reRun (reFuel s) re s [] (fun rest caps => some (caps, rest))

/-- Unanchored leftmost search, as `Regex::captures`: try positions
left to right; yields the prefix before the match, captures, and rest. -/
def reSearch (re : RE) : List Char → List Char → Option (List Char × Caps × List Char)
  | pre, s =>
    match reTry re s with
    | some (caps, rest) => some (pre.reverse, caps, rest)
    | none =>
      match s with
      | [] => none
      | c :: t => reSearch re (c :: pre) t

/-- Captures of an unanchored search (`Regex::captures`). -/
def reCaptures (re : RE) (s : List Char) : Option Caps :=
  (reSearch re [] s).map (fun r => r.2.1)

/-- Captures of a `^`-anchored pattern (match must start at position 0). -/
def reTryCaps (re : RE) (s : List Char) : Option Caps :=
  (reTry re s).map (fun r => r.1)

/-- `caps.get(n).unwrap().as_str()`; the patterns below only read
groups that participate in every successful match. -/
def capn (caps : Caps) (n : Nat) : List Char :=
  ((caps.find? (fun p => p.1 == n)).map (fun p => p.2)).getD []

/-- `Regex::replace_all` with an empty replacement (only use in the
source); matches of `cleaner` are never empty, so the fuel s.length + 1
always suffices. -/
def replaceAllAux (re : RE) : Nat → List Char → List Char
  | 0, s => s
  | fuel + 1, s =>
    match reSearch re [] s with
    | none => s
    | some (pre, _, rest) => pre ++ replaceAllAux re fuel rest

def replaceAllEmpty (re : RE) (s : List Char) : List Char :=
  replaceAllAux re (s.length + 1) s

/-! ## The patterns of `Analyzer::new`, transliterated -/

def rcat (l : List RE) : RE := l.foldr RE.cat RE.eps

def rchr (c : Char) : RE := RE.chr (fun x => x == c)

/-- `.` — any character other than a newline. -/
def rdot : RE := RE.chr (fun c => c != Char.ofNat 10)

/-- `\d` (the captures only ever see ASCII digits). -/
def rdigit : RE := RE.chr Char.isDigit

def rplus (a : RE) : RE := RE.cat a (RE.star a)

/-- Greedy `?`. -/
def ropt (a : RE) : RE := RE.alt a RE.eps

def quoteChar : Char := Char.ofNat 39

/-- `[. _]` -/
def dotSpaceUnd (c : Char) : Bool := c == '.' || c == ' ' || c == '_'

/-- `([. _]*)\[[^]]+\]([. _]*)` -/
def cleaner : RE :=
  rcat [RE.group 1 (RE.star (RE.chr dotSpaceUnd)),
        rchr '[', rplus (RE.chr (fun c => c != ']')), rchr ']',
        RE.group 2 (RE.star (RE.chr dotSpaceUnd))]

/-- `(.*) [sS](\d+)[eE](\d+) (.*)` (unanchored) -/
def title_season_episode : RE :=
  rcat [RE.group 1 (RE.star rdot), rchr ' ',
        RE.chr (fun c => c == 's' || c == 'S'), RE.group 2 (rplus rdigit),
        RE.chr (fun c => c == 'e' || c == 'E'), RE.group 3 (rplus rdigit),
        rchr ' ', RE.group 4 (RE.star rdot)]

/-- `^(.*) - (\d+)(v\d)?( END)?( .*)?$` (the leading `^` is realised by
matching with `reTryCaps`, i.e. only at the start of the string) -/
def title_episode_dash : RE :=
  rcat [RE.group 1 (RE.star rdot), rchr ' ', rchr '-', rchr ' ',
        RE.group 2 (rplus rdigit),
        ropt (RE.group 3 (rcat [rchr 'v', rdigit])),
        ropt (RE.group 4 (rcat [rchr ' ', rchr 'E', rchr 'N', rchr 'D'])),
        ropt (RE.group 5 (rcat [rchr ' ', RE.star rdot])),
        RE.eos]

/-- `^(.*) [eE](\d+)( END)? '.*'?$` -/
def title_episode_quoted_name : RE :=
  rcat [RE.group 1 (RE.star rdot), rchr ' ',
        RE.chr (fun c => c == 'e' || c == 'E'), RE.group 2 (rplus rdigit),
        ropt (RE.group 3 (rcat [rchr ' ', rchr 'E', rchr 'N', rchr 'D'])),
        rchr ' ', rchr quoteChar, RE.star rdot, ropt (rchr quoteChar),
        RE.eos]

/-- `^(.*) (\d+)( END)?( \((.*)\))?( v2)?$` -/
def title_episode : RE :=
  rcat [RE.group 1 (RE.star rdot), rchr ' ', RE.group 2 (rplus rdigit),
        ropt (RE.group 3 (rcat [rchr ' ', rchr 'E', rchr 'N', rchr 'D'])),
        ropt (RE.group 4 (rcat [rchr ' ', rchr '(', RE.group 5 (RE.star rdot), rchr ')'])),
        ropt (RE.group 6 (rcat [rchr ' ', rchr 'v', rchr '2'])),
        RE.eos]

/-- `(.*[^-]) (\d{4})( [^-]|$)` (unanchored) -/
def movie_year : RE :=
  rcat [RE.group 1 (rcat [RE.star rdot, RE.chr (fun c => c != '-')]), rchr ' ',
        RE.group 2 (rcat [rdigit, rdigit, rdigit, rdigit]),
        RE.group 3 (RE.alt (rcat [rchr ' ', RE.chr (fun c => c != '-')]) RE.eos)]

/-! ## Data model and classifier -/

inductive MediaData where
  | Movie (title : String) (year : Option Nat)
  | ShowEpisode (name : String) (season : Nat) (episode : Nat)
  | Garbage
deriving DecidableEq, Repr

/-- A file path reduced to the two accessors the source uses:
`file_stem()` and `extension()`. -/
structure MPath where
  fileStem : String
  extension : Option String
deriving DecidableEq, Repr

/-- `str::parse::<u32>`: all characters are digits, at least one, and
the value fits in a `u32`; anything else is `Err`. -/
def parseU32 (s : List Char) : Option Nat :=
  if s ≠ [] ∧ s.all Char.isDigit then
    let v := s.foldl (fun a c => a * 10 + (c.toNat - 48)) 0
    if v < 4294967296 then some v else none
  else none

/-- `.parse::<u32>().unwrap()` — an `Err` result panics, modelled as
`Except.error`. -/
def unwrapU32 (s : List Char) : Except Unit Nat :=
  match parseU32 s with
  | some v => Except.ok v
  | none => Except.error ()

/-- The garbage match arms of `Analyzer::analyze`, in source order. -/
def garbageExts : List String :=
  ["srt", "sub", "idx", "ogg", "mp3", "jpg", "png",
   "ts", "bdjo", "clpi", "mpls", "m2ts", "bdmv",
   "torrent", "meta", "exe", "nfo", "txt", "md5"]

/-- Stem normalization in the video arm: lowercase (the inputs of
interest are ASCII), strip `cleaner` matches, then `_` and `.` to
spaces. -/
def normalizeName (stem : String) : List Char :=
  let name := stem.toList.map Char.toLower
  let name := replaceAllEmpty cleaner name
  let name := name.map (fun c => if c == '_' then ' ' else c)
  name.map (fun c => if c == '.' then ' ' else c)

/-- The regex cascade of the video arm, in source order; `Except.error`
is a panic of one of the `unwrap`ped numeric parses. -/
def analyzeVideoName (name : List Char) : Except Unit (Option MediaData) :=
  match reCaptures title_season_episode name with
  | some x => do
    let se ← unwrapU32 (capn x 2)
    let ep ← unwrapU32 (capn x 3)
    pure (some (MediaData.ShowEpisode (String.mk (capn x 1)) se ep))
  | none =>
    match reTryCaps title_episode_dash name with
    | some x => do
      let ep ← unwrapU32 (capn x 2)
      pure (some (MediaData.ShowEpisode (String.mk (capn x 1)) 1 ep))
    | none =>
      match reTryCaps title_episode_quoted_name name with
      | some x => do
        let ep ← unwrapU32 (capn x 2)
        pure (some (MediaData.ShowEpisode (String.mk (capn x 1)) 1 ep))
      | none =>
        match reTryCaps title_episode name with
        | some x => do
          let ep ← unwrapU32 (capn x 2)
          pure (some (MediaData.ShowEpisode (String.mk (capn x 1)) 1 ep))
        | none =>
          match reCaptures movie_year name with
          | some x => do
            let y ← unwrapU32 (capn x 2)
            pure (some (MediaData.Movie (String.mk (capn x 1)) (some y)))
          | none => Except.ok none

/-- `Analyzer::analyze`: dispatch on the extension; video extensions go
through the cascade, the recognized-garbage extensions yield `Garbage`
with no name parsing, everything else fails classification. -/
def analyze (p : MPath) : Except Unit (Option MediaData) :=
  match p.extension with
  | some e =>
    if e == "mkv" || e == "mp4" then
      analyzeVideoName (normalizeName p.fileStem)
    else if garbageExts.contains e then
      Except.ok (some MediaData.Garbage)
    else
      Except.ok none
  | none => Except.ok none

/-! ## Link synchronizer

The target tree is modelled flat, as the list of regular files under
the target root (the view `find_all_files` produces), each a path (list
of components) with its inode.  The `Runner` abstraction is a `Bool`:
`dry = true` replaces every mutation with a no-op, exactly as
`DryRunner` does, while the decision logic is shared. -/

structure ScannedFile where
  path : MPath
  metadata : Option MediaData
  inode : Nat
deriving DecidableEq, Repr

structure TFile where
  path : List String
  ino : Nat
deriving DecidableEq, Repr

/-- The inode set built at the top of `remove_hardlinks`:
`source.iter().map(|f| f.inode).collect::<HashSet<_>>()` — every
scanned entry contributes, whatever its classification. -/
def sourceInodes (source : List ScannedFile) : List Nat :=
  source.map (fun f => f.inode)

/-- The loop of `remove_hardlinks` over the snapshot of target files:
a file whose inode is in the set is removed (first component), one
whose inode is not is reported as "extra file found" (second). -/
def reclaimSplit (inodes : List Nat) : List TFile → List TFile × List TFile
  | [] => ([], [])
  | f :: rest =>
    let r := reclaimSplit inodes rest
    if inodes.contains f.ino then (f :: r.1, r.2) else (r.1, f :: r.2)

/-- `remove_hardlinks`: returns the target-file list after the phase,
the deleted files and the reported extras.  In dry mode `remove_file`
is a no-op, so the state is unchanged; in real mode each deleted path
disappears from the tree. -/
def remove_hardlinks (dry : Bool) (source : List ScannedFile) (st : List TFile) :
    List TFile × List TFile × List TFile :=
  let inodes := sourceInodes source
  let r := reclaimSplit inodes st
  (if dry then st else st.filter (fun f => !(inodes.contains f.ino)), r.1, r.2)

/-- `file.path.extension().unwrap()` — classified media entries always
carry an extension, so the default is never exercised by the claims. -/
def extUnwrap : Option String → String
  | some e => e
  | none => ""

/-- The computed target path of `create_links`:
`shows/<name>/Season <season>/episode <episode>.<ext>` for episodes,
`movies/<title> (<year>)/movie.<ext>` (or without the year) for movies,
nothing for `Garbage`/unclassified entries (the `continue` arm). -/
def linkOf (target_dir : List String) (f : ScannedFile) : Option (List String) :=
  match f.metadata with
  | some (MediaData.ShowEpisode name season episode) =>
    some (target_dir ++ ["shows", name, "Season " ++ toString season,
      "episode " ++ toString episode ++ "." ++ extUnwrap f.path.extension])
  | some (MediaData.Movie title year) =>
    some (target_dir ++ ["movies",
      (match year with
       | some y => title ++ " (" ++ toString y ++ ")"
       | none => title),
      "movie." ++ extUnwrap f.path.extension])
  | _ => none

/-- `link.exists()` on the flat target model. -/
def existsP (st : List TFile) (p : List String) : Bool :=
  st.any (fun f => f.path == p)

/-- `create_links`: walks the inventory; for each entry with a computed
target path that does not yet exist, records the `(source, link)` pair
and (in real mode) hardlinks it, which makes the path exist for later
entries; existing paths are skipped.  Returns the final target-file
list and the recorded pairs. -/
def create_links (dry : Bool) (target_dir : List String) :
    List ScannedFile → List TFile → List TFile × List (MPath × List String)
  | [], st => (st, [])
  | f :: rest, st =>
    match linkOf target_dir f with
    | none => create_links dry target_dir rest st
    | some link =>
      if existsP st link then create_links dry target_dir rest st
      else
        let st2 := if dry then st else st ++ [⟨link, f.inode⟩]
        let r := create_links dry target_dir rest st2
        (r.1, (f.path, link) :: r.2)

/-- One run of the synchronizer as `main` sequences it: reclaim then
create.  Returns the resulting target-file list, the deletions of the
reclaim phase and the creations of the create phase (directory pruning
touches no regular file and is modelled separately below). -/
def runAll (dry : Bool) (target_dir : List String) (source : List ScannedFile)
    (st : List TFile) :
    List TFile × List TFile × List (MPath × List String) :=
  let r := remove_hardlinks dry source st
  let c := create_links dry target_dir source r.1
  (c.1, r.2.1, c.2)

/-! ## Empty-directory pruner

`remove_empty_directories` needs the directory structure, so the target
tree is modelled here as a forest of named entries. -/

mutual
inductive Entry where
  | file (name : String) (ino : Nat)
  | dir (name : String) (children : Forest)
deriving DecidableEq

inductive Forest where
  | nil
  | cons (e : Entry) (rest : Forest)
deriving DecidableEq
end

/-- The loop body of `remove_empty_directories` over the entries of one
directory (located at path `pre` from the root): recurse into each
subdirectory, remove it if its recursion reported empty, and report
this directory empty iff every entry was such a subdirectory.  Returns
the emptiness verdict and the removal trace in execution order. -/
def removeEmptyAux (pre : List String) : Forest → Bool × List (List String)
  | Forest.nil => (true, [])
  | Forest.cons e rest =>
    match e with
    | Entry.file _ _ =>
      let r := removeEmptyAux pre rest
      (false, r.2)
    | Entry.dir n cf =>
      let s := removeEmptyAux (pre ++ [n]) cf
      let r := removeEmptyAux pre rest
      if s.1 then (r.1, s.2 ++ [pre ++ [n]] ++ r.2)
      else (false, s.2 ++ r.2)

/-- `remove_empty_directories(runner, target_root)`: the root's return
value is ignored by `main`, so the root itself is never removed; the
trace lists the directories removed, relative to the root. -/
def remove_empty_directories (rootChildren : Forest) : Bool × List (List String) :=
  removeEmptyAux [] rootChildren

/-! ## Reclaim phase: basic characterization -/

theorem reclaimSplit_eq (inodes : List Nat) (st : List TFile) :
    reclaimSplit inodes st =
      (st.filter (fun f => inodes.contains f.ino),
       st.filter (fun f => !(inodes.contains f.ino))) := by
  induction st with
  | nil => simp [reclaimSplit]
  | cons f rest ih =>
    simp only [reclaimSplit, ih, List.filter_cons]
    cases hc : inodes.contains f.ino <;> simp [hc]

/-- Media-bearing classification test (`Movie` or `ShowEpisode`). -/
def isMediaB : Option MediaData → Bool
  | some (MediaData.Movie _ _) => true
  | some (MediaData.ShowEpisode _ _ _) => true
  | _ => false

/-- The set C4 claims the reclaim phase uses: inodes of the entries
classified `Movie` or `ShowEpisode` only. -/
def mediaInodes (source : List ScannedFile) : List Nat :=
  (source.filter (fun f => isMediaB f.metadata)).map (fun f => f.inode)

/-! ## Claim C1 -/

def c1src : List ScannedFile := [⟨⟨"a", some "mkv"⟩, some MediaData.Garbage, 1⟩]
def c1A : TFile := ⟨["t", "x"], 1⟩
def c1B : TFile := ⟨["t", "y"], 2⟩

/-- C1 counterexample: with a source inventory whose single entry has
inode 1 and a target tree holding a file of inode 1 and a stale file of
inode 2 (its source was removed), the reclaim phase deletes exactly the
inode‑1 file — the file whose inode IS present in the source inode set
— and keeps the stale inode‑2 file, the opposite of the claim. -/
theorem C1_reclaim_deletes_absent_cex :
    c1A.ino ∈ sourceInodes c1src ∧ c1B.ino ∉ sourceInodes c1src ∧
    (remove_hardlinks false c1src [c1A, c1B]).2.1 = [c1A] := by
  decide

/-- General characterization of what the code does: the reclaim phase
deletes exactly the target-tree files whose inode IS PRESENT in the
current source inventory's inode set; files whose inode is absent
survive the phase (they are only reported). -/
theorem reclaim_removes_present_inodes (source : List ScannedFile) (st : List TFile) :
    (remove_hardlinks false source st).2.1
      = st.filter (fun f => (sourceInodes source).contains f.ino) ∧
    (remove_hardlinks false source st).1
      = st.filter (fun f => !((sourceInodes source).contains f.ino)) := by
  simp [remove_hardlinks, reclaimSplit_eq]

/-! ## Claim C10 -/

/-- C10: `remove_hardlinks` never removes a target-tree file whose
inode is absent from the set of inodes of all scanned source entries:
such a file is not among the deletions, is reported as an extra, and is
still present in the target tree after the phase (in dry and real mode
alike). -/
theorem reclaim_keeps_absent_inodes (dry : Bool) (source : List ScannedFile)
    (st : List TFile) (f : TFile) (hf : f ∈ st)
    (habs : f.ino ∉ sourceInodes source) :
    f ∉ (remove_hardlinks dry source st).2.1 ∧
    f ∈ (remove_hardlinks dry source st).2.2 ∧
    f ∈ (remove_hardlinks dry source st).1 := by
  have hc : (sourceInodes source).contains f.ino = false := by
    simpa using habs
  cases dry <;>
    simp [remove_hardlinks, reclaimSplit_eq, List.mem_filter, hc, hf, habs]

def c10src : List ScannedFile := [⟨⟨"b", some "mkv"⟩, some MediaData.Garbage, 3⟩]
def c10stale : TFile := ⟨["lib", "old"], 9⟩

/-- Witness for C10 at a concrete input. -/
theorem reclaim_keeps_absent_inodes_witness :
    c10stale ∉ (remove_hardlinks false c10src [c10stale]).2.1 ∧
    c10stale ∈ (remove_hardlinks false c10src [c10stale]).2.2 ∧
    c10stale ∈ (remove_hardlinks false c10src [c10stale]).1 :=
  reclaim_keeps_absent_inodes false c10src [c10stale] c10stale
    (by decide) (by decide)

/-! ## Claim C4 -/

def c4src : List ScannedFile := [⟨⟨"g", some "srt"⟩, some MediaData.Garbage, 7⟩]
def c4T : TFile := ⟨["t", "g"], 7⟩

/-- C4 counterexample: a source entry classified `Garbage` with inode 7
does land in the inode set the reclaim phase consults (`sourceInodes`),
although the claimed media-only set (`mediaInodes`) excludes it, and
the membership test observably fires: the reclaim phase deletes a
target file of inode 7. -/
theorem C4_media_only_inode_set_cex :
    (7 : Nat) ∈ sourceInodes c4src ∧ (7 : Nat) ∉ mediaInodes c4src ∧
    (remove_hardlinks false c4src [c4T]).2.1 = [c4T] := by
  decide

/-- C4 (amended): the inode set used by the reclaim phase contains the
inodes of ALL scanned entries — including those classified `Garbage`
and the unclassified ones: a target file is among the reclaim phase's
deletions iff some scanned entry, of any classification, carries its
inode. -/
theorem reclaim_set_is_all_inodes (dry : Bool) (source : List ScannedFile)
    (st : List TFile) (f : TFile) (hf : f ∈ st) :
    f ∈ (remove_hardlinks dry source st).2.1 ↔
      ∃ g ∈ source, g.inode = f.ino := by
  simp [remove_hardlinks, reclaimSplit_eq, List.mem_filter, hf, sourceInodes]

/-- Witness for the amended C4 at a concrete input: the Garbage entry's
inode governs deletion of the matching target file. -/
theorem reclaim_set_is_all_inodes_witness :
    c4T ∈ (remove_hardlinks true c4src [c4T]).2.1 ↔
      ∃ g ∈ c4src, g.inode = c4T.ino :=
  reclaim_set_is_all_inodes true c4src [c4T] c4T (by decide)

/-! ## Claim C7 -/

/-- C7: every path whose extension is one of the recognized-garbage
extensions classifies as `Garbage`, whatever the filename stem — the
video cascade (and hence any name parsing) is never entered. -/
theorem garbage_ext_always_garbage (stem : String) (e : String)
    (he : e ∈ garbageExts) :
    analyze ⟨stem, some e⟩ = Except.ok (some MediaData.Garbage) := by
  simp only [garbageExts] at he
  fin_cases he <;> rfl

/-- Witness for C7 at a concrete input. -/
theorem garbage_ext_always_garbage_witness :
    analyze ⟨"Totally Unparseable ###", some "srt"⟩
      = Except.ok (some MediaData.Garbage) :=
  garbage_ext_always_garbage "Totally Unparseable ###" "srt" (by decide)

/-! ## Claim C8 -/

/-- C8: the path `Show Name S02E05 extra.mkv` classifies as a show
episode of series "show name", season 2, episode 5 (the
`title_season_episode` rule). -/
theorem show_name_s02e05_classifies :
    analyze ⟨"Show Name S02E05 extra", some "mkv"⟩
      = Except.ok (some (MediaData.ShowEpisode "show name" 2 5)) := by
  rfl

/-! ## Claim C5 -/

/-- C5 counterexample: classifying `Some Movie 1999.mkv` does NOT
yield `Movie { title = "some movie", year = 1999 }`: the bare
trailing-integer episode rule (`title_episode`) is tried before
`movie_year` and matches the whole stem. -/
theorem some_movie_1999_not_movie_cex :
    analyze ⟨"Some Movie 1999", some "mkv"⟩
      ≠ Except.ok (some (MediaData.Movie "some movie" (some 1999))) := by
  have h : analyze ⟨"Some Movie 1999", some "mkv"⟩
      = Except.ok (some (MediaData.ShowEpisode "some movie" 1 1999)) := by rfl
  rw [h]
  simp

/-- C5 (amended): classifying `Some Movie 1999.mkv` yields
`ShowEpisode { name = "some movie", season = 1, episode = 1999 }`,
because the `title_episode` rule fires before `movie_year` ever runs. -/
theorem some_movie_1999_classifies :
    analyze ⟨"Some Movie 1999", some "mkv"⟩
      = Except.ok (some (MediaData.ShowEpisode "some movie" 1 1999)) := by
  rfl

/-! ## Claim C6 -/

/-- C6: the claim that classification never panics fails: on the path
`x s1e4294967296 y.mkv` the `title_season_episode` rule captures the
episode digits `4294967296`, whose value exceeds `u32::MAX`, so
`parse::<u32>()` returns `Err` and the `.unwrap()` panics (modelled as
`Except.error`). -/
theorem analyze_panics_on_overflow :
    analyze ⟨"x s1e4294967296 y", some "mkv"⟩ = Except.error () := by
  rfl

/-! ## Create phase: helper lemmas -/

theorem existsP_append (a b : List TFile) (p : List String) :
    existsP (a ++ b) p = (existsP a p || existsP b p) := by
  simp [existsP, List.any_append]

/-- When every computed link already exists, `create_links` records
nothing and leaves the tree alone. -/
theorem create_links_skip_all (dry : Bool) (td : List String) :
    ∀ (src : List ScannedFile) (st : List TFile),
      (∀ f ∈ src, ∀ l, linkOf td f = some l → existsP st l = true) →
      create_links dry td src st = (st, [])
  | [], _, _ => rfl
  | f :: rest, st, h => by
    have hrest : ∀ g ∈ rest, ∀ l, linkOf td g = some l → existsP st l = true :=
      fun g hg => h g (List.mem_cons_of_mem f hg)
    cases hl : linkOf td f with
    | none => simp [create_links, hl, create_links_skip_all dry td rest st hrest]
    | some l =>
      have hex : existsP st l = true := h f (List.mem_cons_self f rest) l hl
      simp [create_links, hl, hex, create_links_skip_all dry td rest st hrest]

/-- In real mode `create_links` only appends files, and every appended
file carries the inode of some inventory entry. -/
theorem create_links_real_shape (td : List String) :
    ∀ (src : List ScannedFile) (st : List TFile), ∃ ext : List TFile,
      (create_links false td src st).1 = st ++ ext ∧
      ∀ g ∈ ext, ∃ f, f ∈ src ∧ g.ino = f.inode
  | [], st => ⟨[], by simp [create_links], by simp⟩
  | f :: rest, st => by
    cases hl : linkOf td f with
    | none =>
      obtain ⟨ext, h1, h2⟩ := create_links_real_shape td rest st
      exact ⟨ext, by simp [create_links, hl, h1],
        fun g hg => by
          obtain ⟨f2, hf2, he⟩ := h2 g hg
          exact ⟨f2, List.mem_cons_of_mem f hf2, he⟩⟩
    | some l =>
      cases hex : existsP st l with
      | true =>
        obtain ⟨ext, h1, h2⟩ := create_links_real_shape td rest st
        exact ⟨ext, by simp [create_links, hl, hex, h1],
          fun g hg => by
            obtain ⟨f2, hf2, he⟩ := h2 g hg
            exact ⟨f2, List.mem_cons_of_mem f hf2, he⟩⟩
      | false =>
        obtain ⟨ext, h1, h2⟩ :=
          create_links_real_shape td rest (st ++ [⟨l, f.inode⟩])
        refine ⟨⟨l, f.inode⟩ :: ext, ?_, ?_⟩
        · simp only [create_links, hl, hex, Bool.false_eq_true, if_false,
            if_neg, Bool.not_eq_true]
          simpa [List.append_assoc] using h1
        · intro g hg
          rcases List.mem_cons.mp hg with hg | hg
          · exact ⟨f, List.mem_cons_self f rest, by simp [hg]⟩
          · obtain ⟨f2, hf2, he⟩ := h2 g hg
            exact ⟨f2, List.mem_cons_of_mem f hf2, he⟩

/-- A path that exists keeps existing through a real `create_links`. -/
theorem existsP_mono (td : List String) (src : List ScannedFile) (st : List TFile)
    (p : List String) (h : existsP st p = true) :
    existsP (create_links false td src st).1 p = true := by
  obtain ⟨ext, h1, _⟩ := create_links_real_shape td src st
  simp [h1, existsP_append, h]

/-- After a real `create_links`, the computed link of every inventory
entry exists in the target tree. -/
theorem create_links_covers (td : List String) :
    ∀ (src : List ScannedFile) (st : List TFile) (f : ScannedFile) (l : List String),
      f ∈ src → linkOf td f = some l →
      existsP (create_links false td src st).1 l = true
  | g :: rest, st, f, l, hmem, hl => by
    rcases List.mem_cons.mp hmem with heq | htail
    · subst heq
      cases hex : existsP st l with
      | true =>
        simp only [create_links, hl, hex, if_true]
        exact existsP_mono td rest st l hex
      | false =>
        have hst2 : existsP (st ++ [⟨l, f.inode⟩]) l = true := by
          simp [existsP_append, existsP]
        simp only [create_links, hl, hex, Bool.false_eq_true, if_false]
        exact existsP_mono td rest (st ++ [⟨l, f.inode⟩]) l hst2
    · cases hg : linkOf td g with
      | none =>
        simp only [create_links, hg]
        exact create_links_covers td rest st f l htail hl
      | some l2 =>
        cases hex : existsP st l2 with
        | true =>
          simp only [create_links, hg, hex, if_true]
          exact create_links_covers td rest st f l htail hl
        | false =>
          simp only [create_links, hg, hex, Bool.false_eq_true, if_false]
          exact create_links_covers td rest (st ++ [⟨l2, g.inode⟩]) f l htail hl

/-! ## Whole-run lemmas -/

theorem runAll_real_state (td : List String) (src : List ScannedFile) (st0 : List TFile) :
    (runAll false td src st0).1
      = (create_links false td src
          (st0.filter (fun f => !((sourceInodes src).contains f.ino)))).1 := by
  simp [runAll, remove_hardlinks]

theorem runAll_real_crs (td : List String) (src : List ScannedFile) (st0 : List TFile) :
    (runAll false td src st0).2.2
      = (create_links false td src
          (st0.filter (fun f => !((sourceInodes src).contains f.ino)))).2 := by
  simp [runAll, remove_hardlinks]

/-- The files a real run leaves with inodes outside the source set are
exactly those of the starting state: the reclaim phase does not touch
them and the create phase only adds files with source inodes. -/
theorem run1_state_filter (td : List String) (src : List ScannedFile) (st0 : List TFile) :
    (runAll false td src st0).1.filter (fun f => !((sourceInodes src).contains f.ino))
      = st0.filter (fun f => !((sourceInodes src).contains f.ino)) := by
  obtain ⟨ext, h1, h2⟩ := create_links_real_shape td src
    (st0.filter (fun f => !((sourceInodes src).contains f.ino)))
  rw [runAll_real_state, h1, List.filter_append]
  have hext : ext.filter (fun f => !((sourceInodes src).contains f.ino)) = [] := by
    rw [List.filter_eq_nil_iff]
    intro g hg
    obtain ⟨f2, hf2, he⟩ := h2 g hg
    simp only [Bool.not_eq_true', Bool.not_eq_false]
    simp [he, sourceInodes]
    exact ⟨f2, hf2, rfl⟩
  rw [hext, List.append_nil, List.filter_filter]
  simp

/-! ## Claim C2 -/

def c2src : List ScannedFile :=
  [⟨⟨"m", some "mkv"⟩, some (MediaData.Movie "m" (some 2000)), 5⟩]

/-- C2 counterexample: one movie in the source, empty target.  The
first run creates the link; the second run, with nothing changed,
performs one deletion (the reclaim phase removes the link because its
inode IS in the source inode set) and one creation (the create phase
restores it) — not zero actions. -/
theorem C2_second_run_not_actionless_cex :
    (runAll false ["lib"] c2src (runAll false ["lib"] c2src []).1).2.1 ≠ [] ∧
    (runAll false ["lib"] c2src (runAll false ["lib"] c2src []).1).2.2 ≠ [] := by
  decide

/-- What the code actually guarantees for a repeated run: with the
source inventory and filesystem unchanged, a second run is
state-idempotent but not action-free: it reaches the same final target
tree and repeats exactly the first run's creations (the reclaim phase
having deleted those links because their inodes are in the source
set).  The create-phase sub-claim of C2 does hold in isolation: run
directly on the unchanged end state of the first run, `create_links`
finds every computed target path existing and performs zero
creations. -/
theorem second_run_same_state_repeats_creations (td : List String)
    (src : List ScannedFile) (st0 : List TFile) :
    (runAll false td src (runAll false td src st0).1).1
      = (runAll false td src st0).1 ∧
    (runAll false td src (runAll false td src st0).1).2.2
      = (runAll false td src st0).2.2 ∧
    (create_links false td src (runAll false td src st0).1).2 = [] := by
  have hmid := run1_state_filter td src st0
  have hcov : ∀ f ∈ src, ∀ l, linkOf td f = some l →
      existsP (runAll false td src st0).1 l = true := by
    intro f hf l hl
    rw [runAll_real_state]
    exact create_links_covers td src _ f l hf hl
  refine ⟨?_, ?_, ?_⟩
  · rw [runAll_real_state td src (runAll false td src st0).1, hmid,
      ← runAll_real_state]
  · rw [runAll_real_crs td src (runAll false td src st0).1, hmid,
      ← runAll_real_crs]
  · rw [create_links_skip_all false td src (runAll false td src st0).1 hcov]

/-! ## Claim C3 -/

/-- The computed target paths of an inventory, in order. -/
def linksOf (td : List String) (src : List ScannedFile) : List (List String) :=
  src.filterMap (linkOf td)

def c3src : List ScannedFile :=
  [⟨⟨"m", some "mkv"⟩, some (MediaData.Movie "m" (some 2000)), 5⟩]

def c3link : TFile := ⟨["lib", "movies", "m (2000)", "movie.mkv"], 5⟩

/-- C3 counterexample: start from a target tree already holding the
movie's link.  The real run deletes it in the reclaim phase and then
re-creates it (the path no longer exists); the dry run, whose
`remove_file` is a no-op, still sees the path existing and reports no
creation.  The reported and performed creation sets differ. -/
theorem C3_dry_run_not_exact_cex :
    (runAll true ["lib"] c3src [c3link]).2.2
      ≠ (runAll false ["lib"] c3src [c3link]).2.2 := by
  decide

/-- Dry and real `create_links` record the same pairs as long as the
real tree exceeds the dry tree only by files at paths no inventory
entry computes, and the computed paths are pairwise distinct. -/
theorem create_crs_dry_real (td : List String) :
    ∀ (src : List ScannedFile) (st extra : List TFile),
      (linksOf td src).Nodup →
      (∀ f ∈ src, ∀ l, linkOf td f = some l → existsP extra l = false) →
      (create_links false td src (st ++ extra)).2 = (create_links true td src st).2
  | [], st, extra, _, _ => by simp [create_links]
  | f :: rest, st, extra, hnd, hext => by
    cases hl : linkOf td f with
    | none =>
      have hnd2 : (linksOf td rest).Nodup := by
        simpa [linksOf, List.filterMap_cons, hl] using hnd
      simp only [create_links, hl]
      exact create_crs_dry_real td rest st extra hnd2
        (fun g hg => hext g (List.mem_cons_of_mem f hg))
    | some l =>
      have hexl : existsP extra l = false := hext f (List.mem_cons_self f rest) l hl
      have hcons : linksOf td (f :: rest) = l :: linksOf td rest := by
        simp [linksOf, List.filterMap_cons, hl]
      rw [hcons] at hnd
      have hlnotin : l ∉ linksOf td rest := (List.nodup_cons.mp hnd).1
      have hndr : (linksOf td rest).Nodup := (List.nodup_cons.mp hnd).2
      have hsplit : existsP (st ++ extra) l = existsP st l := by
        rw [existsP_append, hexl, Bool.or_false]
      cases hex : existsP st l with
      | true =>
        simp only [create_links, hl, hsplit, hex, if_true]
        exact create_crs_dry_real td rest st extra hndr
          (fun g hg => hext g (List.mem_cons_of_mem f hg))
      | false =>
        simp only [create_links, hl, hsplit, hex, Bool.false_eq_true, if_false]
        have hre : (st ++ extra) ++ [(⟨l, f.inode⟩ : TFile)]
            = st ++ (extra ++ [⟨l, f.inode⟩]) := by
          simp [List.append_assoc]
        rw [hre]
        have hext2 : ∀ g ∈ rest, ∀ l2, linkOf td g = some l2 →
            existsP (extra ++ [(⟨l, f.inode⟩ : TFile)]) l2 = false := by
          intro g hg l2 hl2
          have h1 : existsP extra l2 = false :=
            hext g (List.mem_cons_of_mem f hg) l2 hl2
          have hne : l ≠ l2 := by
            intro he
            exact hlnotin (he ▸ List.mem_filterMap.mpr ⟨g, hg, hl2⟩)
          rw [existsP_append, h1, Bool.false_or]
          simp [existsP, hne]
        have hrec := create_crs_dry_real td rest st (extra ++ [⟨l, f.inode⟩]) hndr hext2
        simp [hrec]

/-- C3 (amended): the deletions a dry run reports always coincide with
the deletions a real run performs from the same starting state (the
reclaim phase decides on the initial snapshot in both modes).  The
creations coincide under two further conditions: no starting target
file's inode lies in the source inode set (so the real reclaim phase
deletes nothing that could free a computed path), and the inventory's
computed target paths are pairwise distinct (so a real creation cannot
suppress a later identical one).  The counterexample shows the
creation sets genuinely diverge when the first condition fails. -/
theorem dryrun_matches_real_amended (td : List String) (src : List ScannedFile)
    (st0 : List TFile) :
    (runAll true td src st0).2.1 = (runAll false td src st0).2.1 ∧
    ((∀ f ∈ st0, f.ino ∉ sourceInodes src) → (linksOf td src).Nodup →
      (runAll true td src st0).2.2 = (runAll false td src st0).2.2) := by
  constructor
  · simp [runAll, remove_hardlinks]
  · intro h0 hnd
    have hfix : st0.filter (fun f => !((sourceInodes src).contains f.ino)) = st0 := by
      rw [List.filter_eq_self]
      intro f hf
      simpa using h0 f hf
    have hdry : (runAll true td src st0).2.2 = (create_links true td src st0).2 := by
      simp [runAll, remove_hardlinks]
    rw [hdry, runAll_real_crs, hfix]
    have hempty : ∀ f ∈ src, ∀ l, linkOf td f = some l →
        existsP ([] : List TFile) l = false := by
      intro f _ l _
      simp [existsP]
    have := create_crs_dry_real td src st0 [] hnd hempty
    simpa using this.symm

/-- Witness for the amended C3 at a concrete input. -/
theorem dryrun_matches_real_amended_witness :
    (runAll true ["lib"] c3src []).2.1 = (runAll false ["lib"] c3src []).2.1 ∧
    (runAll true ["lib"] c3src []).2.2 = (runAll false ["lib"] c3src []).2.2 :=
  ⟨(dryrun_matches_real_amended ["lib"] c3src []).1,
   (dryrun_matches_real_amended ["lib"] c3src []).2
     (by intro f hf; simp at hf) (by decide)⟩

/-! ## Claim C9 -/

mutual
/-- The claim's emptiness notion on one entry: a file is never empty; a
directory is empty iff its contents are. -/
def specEmptyE : Entry → Bool
  | Entry.file _ _ => false
  | Entry.dir _ cf => specEmptyF cf

/-- The claim's emptiness notion on a directory's contents: every
subdirectory recursively evaluates empty and there are zero files. -/
def specEmptyF : Forest → Bool
  | Forest.nil => true
  | Forest.cons e rest => specEmptyE e && specEmptyF rest
end

mutual
/-- Post-order enumeration of the recursively-empty directories inside
one entry located under path `pre`: first those inside it, then — when
it is itself an empty directory — the entry itself.  This is the
claim's removal set, listed bottom-up. -/
def emptyDirsE (pre : List String) : Entry → List (List String)
  | Entry.file _ _ => []
  | Entry.dir n cf =>
    emptyDirsF (pre ++ [n]) cf ++ (if specEmptyF cf then [pre ++ [n]] else [])

def emptyDirsF (pre : List String) : Forest → List (List String)
  | Forest.nil => []
  | Forest.cons e rest => emptyDirsE pre e ++ emptyDirsF pre rest
end

theorem removeEmptyAux_spec : ∀ (f : Forest) (pre : List String),
    removeEmptyAux pre f = (specEmptyF f, emptyDirsF pre f)
  | Forest.nil, pre => by
    simp [removeEmptyAux, specEmptyF, emptyDirsF]
  | Forest.cons (Entry.file n i) rest, pre => by
    simp [removeEmptyAux, specEmptyF, specEmptyE, emptyDirsF, emptyDirsE,
      removeEmptyAux_spec rest pre]
  | Forest.cons (Entry.dir n cf) rest, pre => by
    have hc := removeEmptyAux_spec cf (pre ++ [n])
    have hr := removeEmptyAux_spec rest pre
    simp only [removeEmptyAux, hc, hr, specEmptyF, specEmptyE, emptyDirsF, emptyDirsE]
    cases hcf : specEmptyF cf <;> simp [hcf]

theorem emptyDirs_extend : ∀ (f : Forest) (pre : List String),
    ∀ p ∈ emptyDirsF pre f, pre.length < p.length
  | Forest.nil, pre => by
    simp [emptyDirsF]
  | Forest.cons (Entry.file n i) rest, pre => by
    simpa [emptyDirsF, emptyDirsE] using emptyDirs_extend rest pre
  | Forest.cons (Entry.dir n cf) rest, pre => by
    intro p hp
    simp only [emptyDirsF, emptyDirsE, List.mem_append] at hp
    rcases hp with (hp | hp) | hp
    · have := emptyDirs_extend cf (pre ++ [n]) p hp
      simpa using Nat.lt_of_le_of_lt (Nat.le_succ pre.length) (by simpa using this)
    · rcases (by split at hp <;> simp_all : p = pre ++ [n]) with rfl
      simp
    · exact emptyDirs_extend rest pre p hp

/-- C9: the pruner removes exactly the directories under the target
root that the claim calls empty (every subdirectory recursively
evaluates empty and zero direct files), the removal trace is the
post-order — bottom-up — enumeration of those directories (each
directory appears after everything removed inside it), and the root
itself is never in the trace. -/
theorem prune_removes_exactly_empty_dirs (f : Forest) :
    (remove_empty_directories f).2 = emptyDirsF [] f ∧
    (remove_empty_directories f).1 = specEmptyF f ∧
    ∀ p ∈ (remove_empty_directories f).2, p ≠ [] := by
  have h := removeEmptyAux_spec f []
  refine ⟨by simp [remove_empty_directories, h],
    by simp [remove_empty_directories, h], ?_⟩
  intro p hp hnil
  have hlen := emptyDirs_extend f [] p
    (by simpa [remove_empty_directories, h] using hp)
  simp [hnil] at hlen

/-- A concrete target tree for the C9 witness: `shows/a` is empty,
`shows` becomes empty once `a` is removed, `movies` holds a file. -/
def c9forest : Forest :=
  Forest.cons
    (Entry.dir "shows" (Forest.cons (Entry.dir "a" Forest.nil) Forest.nil))
    (Forest.cons (Entry.dir "movies" (Forest.cons (Entry.file "movie.mkv" 5) Forest.nil))
      Forest.nil)

/-- Witness for C9 at a concrete input: the trace is the bottom-up
enumeration, and a concrete removed directory is not the root. -/
theorem prune_removes_exactly_empty_dirs_witness :
    (remove_empty_directories c9forest).2 = emptyDirsF [] c9forest ∧
    (["shows"] : List String) ≠ [] :=
  ⟨(prune_removes_exactly_empty_dirs c9forest).1,
   (prune_removes_exactly_empty_dirs c9forest).2.2 ["shows"] (by decide)⟩

end Harvester
